import Mathlib

/-!
Verification of the rrinlog-server query core (src/rrinlog-server/src/main.rs).

The embedding models:
- timestamps (chrono DateTime of Utc) at millisecond resolution, as integers;
  the method timestamp() floors to whole seconds, as chrono does;
- the uom dimensioned integers: a Time quantity with i64 storage keeps its
  value in the base unit (whole seconds); constructing one from milliseconds
  divides by 1000 rounding toward zero, reading it in milliseconds multiplies
  by 1000 exactly; the quotient of two Time quantities is i64 division, which
  rounds toward zero (Int.tdiv);
- the numeric casts of Rust at the u64 and usize boundaries (reduction
  modulo 2 to the 64) explicitly; i64 intermediate overflow, which cannot
  occur for the clock values chrono produces, is outside the modelled range;
- panics (the unchecked vector write in fill_datapoints, integer division by
  zero) as the value none of an Option result;
- the storage collaborator (the dao module, whose SQL layer is an external
  concern) as an explicit parameter carrying the rows each query would
  return, so that a result provable for every storage value is by
  construction computed without storage access.
-/

/-- Model of a chrono UTC instant at millisecond resolution. -/
structure DateTime where
  ms : Int
deriving DecidableEq, Repr

/-- The method timestamp() of chrono: whole seconds since the epoch,
flooring (sub-second parts are discarded toward negative infinity). -/
def DateTime.timestamp (d : DateTime) : Int :=
  d.ms.fdiv 1000

/-- Model of api::Range: the two instants of the request. The field named
from in the source is called from_ here because from is a reserved word. -/
structure Range where
  from_ : DateTime
  to_ : DateTime
deriving DecidableEq, Repr

/-- Reinterpretation of an i64 value as u64 (the cast `as u64` of Rust):
reduction modulo 2 to the 64. The same reinterpretation underlies the cast
`as usize` on a 64-bit platform. -/
def u64_of_i64 (x : Int) : Nat :=
  (x % (2 ^ 64 : Int)).toNat

/-- Reinterpretation of a u64 value as i64 (the cast `as i64` of Rust). -/
def i64_of_u64 (x : Nat) : Int :=
  if x < 2 ^ 63 then (x : Int) else (x : Int) - 2 ^ 64

/-- Bucket index as the source computes it (main.rs lines 151 and 152):
the point timestamp, given in u64 milliseconds, is cast to i64 and stored
as whole seconds (division by 1000 toward zero); the offset from the range
start is divided by the interval (i64 division, toward zero); the result is
cast to usize. -/
def bucket_index (start interval : Int) (ep : Nat) : Nat :=
  u64_of_i64 ((((i64_of_u64 ep).tdiv 1000) - start).tdiv interval)

/-- Bucket index as the specification states it: floor of
(point_seconds - from_seconds) / interval_seconds, with point_seconds the
point timestamp truncated to whole seconds. -/
def spec_bucket_index (start interval : Int) (ep : Nat) : Int :=
  (((ep : Int).fdiv 1000) - start).fdiv interval

/-- The write loop of fill_datapoints (main.rs lines 150 to 154): each point
value is written at its computed bucket index, overwriting what was there.
The vector write data[index] is unchecked; an out-of-range index panics,
modelled as none. -/
def write_points (start interval : Int) (data : List Nat) :
    List (Nat × Nat) → Option (List Nat)
  | [] => some data
  | p :: ps =>
    let index := bucket_index start interval p.2
    if index < data.length then
      write_points start interval (data.set index p.1) ps
    else
      none

/-- Model of fill_datapoints (main.rs lines 140 to 160). A point is a pair
(value, timestamp in u64 milliseconds); the result pairs each bucket value
with its aligned timestamp. Division by a zero interval and the allocation
of a vector of negative i64 length cast to usize both panic, modelled as
none; the interval reaching this function is in fact always at least one
second. -/
def fill_datapoints (range : Range) (interval : Int) (points : List (Nat × Nat)) :
    Option (List (Nat × Nat)) :=
  if interval = 0 then none
  else
    let start := range.from_.timestamp
    let stop := range.to_.timestamp
    let elements : Int := (stop - start).tdiv interval + 1
    if elements < 0 then none
    else
      let time : List Nat := (List.range elements.toNat).map fun i : Nat =>
        u64_of_i64 ((i : Int) * (interval * 1000) + start * 1000)
      (write_points start interval (List.replicate elements.toNat 0) points).map
        fun data => data.zip time

example : fill_datapoints ⟨⟨0⟩, ⟨0⟩⟩ 1 [] = some [(0, 0)] := by decide
example : fill_datapoints ⟨⟨0⟩, ⟨0⟩⟩ 1 [(5, 2000000)] = none := by decide
example :
    fill_datapoints ⟨⟨0⟩, ⟨3000⟩⟩ 1 [(7, 1500)] =
      some [(0, 0), (7, 1000), (0, 2000), (0, 3000)] := by decide

/-- For nonnegative dividend and divisor, division toward zero agrees with
floor division. -/
theorem tdiv_eq_fdiv_of_nonneg {a b : Int} (ha : 0 ≤ a) (hb : 0 ≤ b) :
    a.tdiv b = a.fdiv b := by
  rw [Int.tdiv_eq_ediv ha hb, Int.fdiv_eq_ediv _ hb]

/-- The cast to u64 is the identity on values already in u64 range. -/
theorem u64_of_i64_of_nonneg {x : Int} (h0 : 0 ≤ x) (hlt : x < 2 ^ 64) :
    u64_of_i64 x = x.toNat := by
  unfold u64_of_i64
  rw [Int.emod_eq_of_lt h0 hlt]

/-- The cast to i64 is the identity on values below 2 to the 63. -/
theorem i64_of_u64_of_lt {x : Nat} (h : x < 2 ^ 63) : i64_of_u64 x = (x : Int) := by
  unfold i64_of_u64
  rw [if_pos h]

/-- Characterization of the write loop: when every index is in bounds, the
loop succeeds, keeps the vector length, and leaves in each slot the value of
the last point written there, or the prior content of the slot when no point
maps to it. -/
theorem write_points_spec (start interval : Int) (points : List (Nat × Nat)) :
    ∀ data : List Nat,
      (∀ p ∈ points, bucket_index start interval p.2 < data.length) →
      ∃ d, write_points start interval data points = some d ∧
        d.length = data.length ∧
        ∀ j : Nat,
          d.getD j 0 =
            ((points.filter fun p => bucket_index start interval p.2 == j).getLast?).elim
              (data.getD j 0) Prod.fst := by
  induction points with
  | nil =>
    intro data _
    exact ⟨data, rfl, rfl, fun j => by simp [List.filter_nil]⟩
  | cons p ps ih =>
    intro data h
    have hp : bucket_index start interval p.2 < data.length := h p (by simp)
    have hps : ∀ q ∈ ps,
        bucket_index start interval q.2 <
          (data.set (bucket_index start interval p.2) p.1).length := by
      intro q hq
      rw [List.length_set]
      exact h q (List.mem_cons_of_mem _ hq)
    obtain ⟨d, hd, hlen, hval⟩ := ih (data.set (bucket_index start interval p.2) p.1) hps
    refine ⟨d, ?_, ?_, ?_⟩
    · simp only [write_points, if_pos hp]
      exact hd
    · rw [hlen, List.length_set]
    · intro j
      rw [hval j]
      by_cases hij : bucket_index start interval p.2 = j
      · rw [List.filter_cons_of_pos (by simpa using hij)]
        cases hfl : ps.filter fun q => bucket_index start interval q.2 == j with
        | nil =>
          simp only [hfl, List.getLast?_singleton, List.getLast?_nil, Option.elim]
          rw [List.getD_eq_getElem?_getD, hij, List.getElem?_set_self (hij ▸ hp),
            Option.getD_some]
        | cons a l =>
          rw [List.getLast?_cons_cons]
          obtain ⟨q, hq⟩ : ∃ q, (a :: l).getLast? = some q :=
            ⟨(a :: l).getLast (by simp), List.getLast?_eq_getLast _ (by simp)⟩
          rw [hq]
          rfl
      · rw [List.filter_cons_of_neg (by simpa using hij)]
        rw [List.getD_eq_getElem?_getD data, List.getD_eq_getElem?_getD,
          List.getElem?_set_ne hij]

/-- Master characterization of fill_datapoints: for a validated range
(whole-second start not after whole-second stop, difference in i64 range),
an interval of at least one second, and points whose whole-second
timestamps lie inside the range, the function succeeds and returns
floor((stop - start) / interval) + 1 buckets; bucket j carries the aligned
timestamp and the value of the last point whose bucket index is j, or zero
when no point maps to j. -/
theorem fill_datapoints_spec (range : Range) (s : Int) (points : List (Nat × Nat))
    (hs : 1 ≤ s)
    (hft : range.from_.timestamp ≤ range.to_.timestamp)
    (hdiff : range.to_.timestamp - range.from_.timestamp < 2 ^ 63)
    (hpts : ∀ p ∈ points, p.2 < 2 ^ 63 ∧
      range.from_.timestamp ≤ (p.2 : Int).tdiv 1000 ∧
      (p.2 : Int).tdiv 1000 ≤ range.to_.timestamp) :
    ∃ l, fill_datapoints range s points = some l ∧
      (l.length : Int) = (range.to_.timestamp - range.from_.timestamp).tdiv s + 1 ∧
      (∀ j : Nat, j < l.length →
        (l.getD j (0, 0)).2 =
          u64_of_i64 ((j : Int) * (s * 1000) + range.from_.timestamp * 1000)) ∧
      (∀ j : Nat, j < l.length →
        (l.getD j (0, 0)).1 =
          (((points.filter fun p =>
            spec_bucket_index range.from_.timestamp s p.2 == (j : Int)).getLast?).map
            Prod.fst).getD 0) := by
  set A := range.from_.timestamp with hA
  set B := range.to_.timestamp with hB
  have hs0 : s ≠ 0 := by omega
  have hspos : 0 < s := by omega
  have hBA : 0 ≤ B - A := by omega
  have hq0 : 0 ≤ (B - A).tdiv s := by
    rw [Int.tdiv_eq_ediv hBA (le_of_lt hspos)]
    exact Int.ediv_nonneg hBA (le_of_lt hspos)
  set q := (B - A).tdiv s with hqdef
  have hqle : q ≤ B - A := by
    rw [hqdef, Int.tdiv_eq_ediv hBA (le_of_lt hspos)]
    exact Int.ediv_le_self _ hBA
  have hidx : ∀ p ∈ points,
      bucket_index A s p.2 = (spec_bucket_index A s p.2).toNat ∧
      0 ≤ spec_bucket_index A s p.2 ∧ spec_bucket_index A s p.2 ≤ q := by
    intro p hp
    obtain ⟨h63, hge, hle⟩ := hpts p hp
    have hp0 : (0 : Int) ≤ (p.2 : Int) := Int.natCast_nonneg _
    have hcast : i64_of_u64 p.2 = (p.2 : Int) := i64_of_u64_of_lt h63
    have htd : (p.2 : Int).tdiv 1000 = (p.2 : Int).fdiv 1000 :=
      tdiv_eq_fdiv_of_nonneg hp0 (by norm_num)
    have hsub0 : 0 ≤ (p.2 : Int).tdiv 1000 - A := by omega
    have hspec : spec_bucket_index A s p.2 = ((p.2 : Int).tdiv 1000 - A).tdiv s := by
      rw [spec_bucket_index, ← htd, tdiv_eq_fdiv_of_nonneg hsub0 (le_of_lt hspos)]
    have hspec0 : 0 ≤ spec_bucket_index A s p.2 := by
      rw [hspec, Int.tdiv_eq_ediv hsub0 (le_of_lt hspos)]
      exact Int.ediv_nonneg hsub0 (le_of_lt hspos)
    have hspecle : spec_bucket_index A s p.2 ≤ q := by
      rw [hspec, hqdef, Int.tdiv_eq_ediv hsub0 (le_of_lt hspos),
        Int.tdiv_eq_ediv hBA (le_of_lt hspos)]
      exact Int.ediv_le_ediv hspos (by omega)
    refine ⟨?_, hspec0, hspecle⟩
    rw [bucket_index, hcast, ← hspec]
    exact u64_of_i64_of_nonneg hspec0 (by omega)
  have hN0 : (0 : Int) ≤ q + 1 := by omega
  have hwlen : ∀ p ∈ points,
      bucket_index A s p.2 < (List.replicate (q + 1).toNat 0).length := by
    intro p hp
    obtain ⟨he, h0, hle⟩ := hidx p hp
    rw [List.length_replicate, he, Int.toNat_lt h0, Int.toNat_of_nonneg hN0]
    omega
  obtain ⟨d, hd, hdlen, hdval⟩ :=
    write_points_spec A s points (List.replicate (q + 1).toNat 0) hwlen
  set N := (q + 1).toNat with hNdef
  have hNI : (N : Int) = q + 1 := Int.toNat_of_nonneg hN0
  have hdlen2 : d.length = N := by rw [hdlen, List.length_replicate]
  set time := (List.range N).map
    (fun i : Nat => u64_of_i64 ((i : Int) * (s * 1000) + A * 1000)) with htime
  have hziplen : (d.zip time).length = N := by
    rw [List.length_zip, hdlen2, htime, List.length_map, List.length_range, min_self]
  have hgets : ∀ j : Nat, j < N →
      (d.zip time).getD j (0, 0) =
        (d.getD j 0, u64_of_i64 ((j : Int) * (s * 1000) + A * 1000)) := by
    intro j hjN
    have hjd : j < d.length := by rw [hdlen2]; exact hjN
    have h1 : d[j]? = some (d.getD j 0) := by
      cases hcase : d[j]? with
      | none =>
        have := List.getElem?_eq_none_iff.mp hcase
        omega
      | some v =>
        rw [List.getD_eq_getElem?_getD, hcase]
        rfl
    have htj : time[j]? = some (u64_of_i64 ((j : Int) * (s * 1000) + A * 1000)) := by
      rw [htime, List.getElem?_map, List.getElem?_range hjN]
      rfl
    have hzip : (d.zip time)[j]? =
        some (d.getD j 0, u64_of_i64 ((j : Int) * (s * 1000) + A * 1000)) :=
      List.getElem?_zip_eq_some.mpr ⟨h1, htj⟩
    rw [List.getD_eq_getElem?_getD, hzip]
    rfl
  refine ⟨d.zip time, ?_, ?_, ?_, ?_⟩
  · simp only [fill_datapoints, if_neg hs0, ← hA, ← hB, ← hqdef,
      if_neg (by omega : ¬ q + 1 < 0), ← hNdef, hd, Option.map_some, ← htime]
    rfl
  · rw [hziplen, hNI]
  · intro j hj
    rw [hziplen] at hj
    rw [hgets j hj]
  · intro j hj
    rw [hziplen] at hj
    rw [hgets j hj]
    simp only
    rw [hdval j]
    have hrep : (List.replicate N (0 : Nat)).getD j 0 = 0 := by
      rw [List.getD_eq_getElem?_getD, List.getElem?_replicate]
      split <;> rfl
    rw [hrep]
    have hfeq : (points.filter fun p => bucket_index A s p.2 == j) =
        (points.filter fun p => spec_bucket_index A s p.2 == (j : Int)) := by
      apply List.filter_congr
      intro p hp
      obtain ⟨he, h0, _⟩ := hidx p hp
      rw [Bool.eq_iff_iff, beq_iff_eq, beq_iff_eq, he]
      constructor
      · intro h
        rw [← h, Int.toNat_of_nonneg h0]
      · intro h
        rw [h]
        simp
    rw [hfeq]
    cases hlast : (points.filter fun p =>
        spec_bucket_index A s p.2 == (j : Int)).getLast? <;> rfl

/-- Bounds for the specification bucket index of an in-range point: it is
nonnegative and at most floor((to_seconds - from_seconds) / s). -/
theorem spec_bucket_index_bounds (range : Range) (s : Int) (ep : Nat)
    (hs : 1 ≤ s)
    (hge : range.from_.timestamp ≤ (ep : Int).tdiv 1000)
    (hle : (ep : Int).tdiv 1000 ≤ range.to_.timestamp) :
    0 ≤ spec_bucket_index range.from_.timestamp s ep ∧
    spec_bucket_index range.from_.timestamp s ep ≤
      (range.to_.timestamp - range.from_.timestamp).tdiv s := by
  have hp0 : (0 : Int) ≤ (ep : Int) := Int.natCast_nonneg _
  have htd : (ep : Int).tdiv 1000 = (ep : Int).fdiv 1000 :=
    tdiv_eq_fdiv_of_nonneg hp0 (by norm_num)
  have hsub0 : 0 ≤ (ep : Int).tdiv 1000 - range.from_.timestamp := by omega
  have hBA : 0 ≤ range.to_.timestamp - range.from_.timestamp := by omega
  have hspec : spec_bucket_index range.from_.timestamp s ep =
      ((ep : Int).tdiv 1000 - range.from_.timestamp).tdiv s := by
    rw [spec_bucket_index, ← htd,
      tdiv_eq_fdiv_of_nonneg hsub0 (by omega)]
  constructor
  · rw [hspec, Int.tdiv_eq_ediv hsub0 (by omega)]
    exact Int.ediv_nonneg hsub0 (by omega)
  · rw [hspec, Int.tdiv_eq_ediv hsub0 (by omega), Int.tdiv_eq_ediv hBA (by omega)]
    exact Int.ediv_le_ediv (by omega) (by omega)

/-- Claim C1: for a range whose whole-second start is at most its
whole-second stop (a nonnegative epoch representable in u64 milliseconds)
and an interval of at least one second, fill_datapoints succeeds on any
point list drawn from the input contract of the bucketing engine (points
whose whole-second timestamps lie in the range), returns exactly
floor((to_seconds - from_seconds) / s) + 1 points, and the point at index
i carries the timestamp from_seconds*1000 + i*s*1000. -/
theorem fill_datapoints_dense_grid (range : Range) (s : Int) (points : List (Nat × Nat))
    (hs : 1 ≤ s)
    (hft : range.from_.timestamp ≤ range.to_.timestamp)
    (hms0 : 0 ≤ range.from_.ms) (hms1 : range.to_.ms < 2 ^ 64)
    (hpts : ∀ p ∈ points, p.2 < 2 ^ 63 ∧
      range.from_.timestamp ≤ (p.2 : Int).tdiv 1000 ∧
      (p.2 : Int).tdiv 1000 ≤ range.to_.timestamp) :
    ∃ l, fill_datapoints range s points = some l ∧
      (l.length : Int) =
        (range.to_.timestamp - range.from_.timestamp).fdiv s + 1 ∧
      ∀ i : Nat, i < l.length →
        ((l.getD i (0, 0)).2 : Int) =
          range.from_.timestamp * 1000 + (i : Int) * s * 1000 := by
  have hA0 : 0 ≤ range.from_.timestamp := by
    rw [DateTime.timestamp, Int.fdiv_eq_ediv _ (by norm_num)]
    exact Int.ediv_nonneg hms0 (by norm_num)
  have hBle : range.to_.timestamp * 1000 ≤ range.to_.ms := by
    rw [DateTime.timestamp, Int.fdiv_eq_ediv _ (by norm_num)]
    exact Int.ediv_mul_le _ (by norm_num)
  have hdiff : range.to_.timestamp - range.from_.timestamp < 2 ^ 63 := by omega
  obtain ⟨l, hfill, hlen, htime, _⟩ :=
    fill_datapoints_spec range s points hs hft hdiff hpts
  refine ⟨l, hfill, ?_, ?_⟩
  · rw [hlen, tdiv_eq_fdiv_of_nonneg (by omega) (by omega)]
  · intro i hi
    have hiq : (i : Int) ≤ (range.to_.timestamp - range.from_.timestamp).tdiv s := by
      have h4 : (i : Int) < (range.to_.timestamp - range.from_.timestamp).tdiv s + 1 := by
        rw [← hlen]
        exact_mod_cast hi
      exact Int.lt_add_one_iff.mp h4
    have hqmul : (range.to_.timestamp - range.from_.timestamp).tdiv s * s ≤
        range.to_.timestamp - range.from_.timestamp := by
      rw [Int.tdiv_eq_ediv (by omega) (by omega)]
      exact Int.ediv_mul_le _ (by omega)
    have hsmul : (i : Int) * s ≤ range.to_.timestamp - range.from_.timestamp :=
      le_trans (mul_le_mul_of_nonneg_right hiq (by omega)) hqmul
    have hv0 : 0 ≤ (i : Int) * (s * 1000) + range.from_.timestamp * 1000 := by
      have h1 : 0 ≤ (i : Int) * (s * 1000) :=
        mul_nonneg (Int.natCast_nonneg _) (by omega)
      have h2 : 0 ≤ range.from_.timestamp * 1000 :=
        mul_nonneg hA0 (by norm_num)
      linarith
    have hvlt : (i : Int) * (s * 1000) + range.from_.timestamp * 1000 < 2 ^ 64 := by
      have h2 : (i : Int) * (s * 1000) = (i : Int) * s * 1000 := by ring
      have h3 : (i : Int) * s * 1000 ≤
          (range.to_.timestamp - range.from_.timestamp) * 1000 :=
        mul_le_mul_of_nonneg_right hsmul (by norm_num)
      linarith
    rw [htime i hi, u64_of_i64_of_nonneg hv0 hvlt, Int.toNat_of_nonneg hv0]
    ring

theorem fill_datapoints_dense_grid_witness :
    ∃ l, fill_datapoints ⟨⟨0⟩, ⟨10000⟩⟩ 2 [(3, 4500)] = some l ∧
      (l.length : Int) =
        ((⟨⟨0⟩, ⟨10000⟩⟩ : Range).to_.timestamp -
          (⟨⟨0⟩, ⟨10000⟩⟩ : Range).from_.timestamp).fdiv 2 + 1 ∧
      ∀ i : Nat, i < l.length →
        ((l.getD i (0, 0)).2 : Int) =
          (⟨⟨0⟩, ⟨10000⟩⟩ : Range).from_.timestamp * 1000 + (i : Int) * 2 * 1000 :=
  fill_datapoints_dense_grid ⟨⟨0⟩, ⟨10000⟩⟩ 2 [(3, 4500)]
    (by decide) (by decide) (by decide) (by decide) (by decide)

/-- Claim C2: on a validated range, a single in-range point sets exactly
the bucket at index floor((t_seconds - from_seconds)/s) to its value and
leaves every other bucket at zero; the empty input yields an all-zero
series. -/
theorem fill_datapoints_single_point (range : Range) (s : Int) (v ep : Nat)
    (hs : 1 ≤ s)
    (hft : range.from_.timestamp ≤ range.to_.timestamp)
    (hms0 : 0 ≤ range.from_.ms) (hms1 : range.to_.ms < 2 ^ 64)
    (hep : ep < 2 ^ 63 ∧ range.from_.timestamp ≤ (ep : Int).tdiv 1000 ∧
      (ep : Int).tdiv 1000 ≤ range.to_.timestamp) :
    (∃ l, fill_datapoints range s [(v, ep)] = some l ∧
      (spec_bucket_index range.from_.timestamp s ep).toNat < l.length ∧
      (l.getD (spec_bucket_index range.from_.timestamp s ep).toNat (0, 0)).1 = v ∧
      ∀ j : Nat, j < l.length →
        j ≠ (spec_bucket_index range.from_.timestamp s ep).toNat →
        (l.getD j (0, 0)).1 = 0) ∧
    (∃ l0, fill_datapoints range s [] = some l0 ∧
      ∀ j : Nat, j < l0.length → (l0.getD j (0, 0)).1 = 0) := by
  have hA0 : 0 ≤ range.from_.timestamp := by
    rw [DateTime.timestamp, Int.fdiv_eq_ediv _ (by norm_num)]
    exact Int.ediv_nonneg hms0 (by norm_num)
  have hBle : range.to_.timestamp * 1000 ≤ range.to_.ms := by
    rw [DateTime.timestamp, Int.fdiv_eq_ediv _ (by norm_num)]
    exact Int.ediv_mul_le _ (by norm_num)
  have hdiff : range.to_.timestamp - range.from_.timestamp < 2 ^ 63 := by omega
  obtain ⟨hI0, hIle⟩ := spec_bucket_index_bounds range s ep hs hep.2.1 hep.2.2
  constructor
  · obtain ⟨l, hfill, hlen, _, hval⟩ :=
      fill_datapoints_spec range s [(v, ep)] hs hft hdiff
        (by intro p hp; rw [List.mem_singleton] at hp; subst hp; exact hep)
    have hIlt : (spec_bucket_index range.from_.timestamp s ep).toNat < l.length := by
      have h1 : ((spec_bucket_index range.from_.timestamp s ep).toNat : Int) =
          spec_bucket_index range.from_.timestamp s ep := Int.toNat_of_nonneg hI0
      have h2 : spec_bucket_index range.from_.timestamp s ep < (l.length : Int) := by
        omega
      omega
    refine ⟨l, hfill, hIlt, ?_, ?_⟩
    · rw [hval _ hIlt]
      simp [List.filter_singleton, Int.toNat_of_nonneg hI0]
    · intro j hj hne
      rw [hval j hj]
      have hne2 : spec_bucket_index range.from_.timestamp s ep ≠ ((j : Nat) : Int) := by
        intro hcontra
        apply hne
        rw [hcontra]
        simp
      simp [List.filter_singleton, hne2]
  · obtain ⟨l0, hfill, hlen, _, hval⟩ :=
      fill_datapoints_spec range s [] hs hft hdiff (by intro p hp; cases hp)
    refine ⟨l0, hfill, ?_⟩
    intro j hj
    rw [hval j hj]
    simp

theorem fill_datapoints_single_point_witness :
    (∃ l, fill_datapoints ⟨⟨0⟩, ⟨10000⟩⟩ 2 [(3, 4500)] = some l ∧
      (spec_bucket_index (⟨⟨0⟩, ⟨10000⟩⟩ : Range).from_.timestamp 2 4500).toNat < l.length ∧
      (l.getD (spec_bucket_index (⟨⟨0⟩, ⟨10000⟩⟩ : Range).from_.timestamp 2 4500).toNat
        (0, 0)).1 = 3 ∧
      ∀ j : Nat, j < l.length →
        j ≠ (spec_bucket_index (⟨⟨0⟩, ⟨10000⟩⟩ : Range).from_.timestamp 2 4500).toNat →
        (l.getD j (0, 0)).1 = 0) ∧
    (∃ l0, fill_datapoints ⟨⟨0⟩, ⟨10000⟩⟩ 2 [] = some l0 ∧
      ∀ j : Nat, j < l0.length → (l0.getD j (0, 0)).1 = 0) :=
  fill_datapoints_single_point ⟨⟨0⟩, ⟨10000⟩⟩ 2 3 4500
    (by decide) (by decide) (by decide) (by decide) (by decide)

/-- Claim C3: on a validated range with in-range points, each bucket of the
result holds exactly the value of the last point in list order whose
specification index is that bucket, zero when none maps there; in
particular colliding points overwrite, they are never summed. -/
theorem fill_datapoints_last_write_wins (range : Range) (s : Int)
    (points : List (Nat × Nat))
    (hs : 1 ≤ s)
    (hft : range.from_.timestamp ≤ range.to_.timestamp)
    (hms0 : 0 ≤ range.from_.ms) (hms1 : range.to_.ms < 2 ^ 64)
    (hpts : ∀ p ∈ points, p.2 < 2 ^ 63 ∧
      range.from_.timestamp ≤ (p.2 : Int).tdiv 1000 ∧
      (p.2 : Int).tdiv 1000 ≤ range.to_.timestamp) :
    ∃ l, fill_datapoints range s points = some l ∧
      ∀ j : Nat, j < l.length →
        (l.getD j (0, 0)).1 =
          (((points.filter fun p =>
            spec_bucket_index range.from_.timestamp s p.2 == (j : Int)).getLast?).map
            Prod.fst).getD 0 := by
  have hA0 : 0 ≤ range.from_.timestamp := by
    rw [DateTime.timestamp, Int.fdiv_eq_ediv _ (by norm_num)]
    exact Int.ediv_nonneg hms0 (by norm_num)
  have hBle : range.to_.timestamp * 1000 ≤ range.to_.ms := by
    rw [DateTime.timestamp, Int.fdiv_eq_ediv _ (by norm_num)]
    exact Int.ediv_mul_le _ (by norm_num)
  have hdiff : range.to_.timestamp - range.from_.timestamp < 2 ^ 63 := by omega
  obtain ⟨l, hfill, _, _, hval⟩ :=
    fill_datapoints_spec range s points hs hft hdiff hpts
  exact ⟨l, hfill, hval⟩

theorem fill_datapoints_last_write_wins_witness :
    ∃ l, fill_datapoints ⟨⟨0⟩, ⟨10000⟩⟩ 2 [(3, 4500), (9, 5100)] = some l ∧
      ∀ j : Nat, j < l.length →
        (l.getD j (0, 0)).1 =
          ((([(3, 4500), (9, 5100)].filter fun p =>
            spec_bucket_index (⟨⟨0⟩, ⟨10000⟩⟩ : Range).from_.timestamp 2 p.2 ==
              (j : Int)).getLast?).map Prod.fst).getD 0 :=
  fill_datapoints_last_write_wins ⟨⟨0⟩, ⟨10000⟩⟩ 2 [(3, 4500), (9, 5100)]
    (by decide) (by decide) (by decide) (by decide) (by decide)

/-- Claim C4: with a validated range (from at most to after truncation to
whole seconds), an interval of at least one second, and every point
timestamp inside the range after truncation to whole seconds, each computed
bucket index is in bounds, so the unchecked write in fill_datapoints never
panics; without that precondition the index is neither checked nor clamped,
so an out-of-range point panics (a point 2000 seconds after a
single-second range). -/
theorem fill_datapoints_index_in_bounds (range : Range) (s : Int)
    (points : List (Nat × Nat))
    (hs : 1 ≤ s)
    (hft : range.from_.timestamp ≤ range.to_.timestamp)
    (hms0 : 0 ≤ range.from_.ms) (hms1 : range.to_.ms < 2 ^ 64)
    (hpts : ∀ p ∈ points, p.2 < 2 ^ 63 ∧
      range.from_.timestamp ≤ (p.2 : Int).tdiv 1000 ∧
      (p.2 : Int).tdiv 1000 ≤ range.to_.timestamp) :
    (∃ l, fill_datapoints range s points = some l) ∧
    fill_datapoints ⟨⟨0⟩, ⟨0⟩⟩ 1 [(5, 2000000)] = none := by
  have hA0 : 0 ≤ range.from_.timestamp := by
    rw [DateTime.timestamp, Int.fdiv_eq_ediv _ (by norm_num)]
    exact Int.ediv_nonneg hms0 (by norm_num)
  have hBle : range.to_.timestamp * 1000 ≤ range.to_.ms := by
    rw [DateTime.timestamp, Int.fdiv_eq_ediv _ (by norm_num)]
    exact Int.ediv_mul_le _ (by norm_num)
  have hdiff : range.to_.timestamp - range.from_.timestamp < 2 ^ 63 := by omega
  obtain ⟨l, hfill, _, _, _⟩ :=
    fill_datapoints_spec range s points hs hft hdiff hpts
  exact ⟨⟨l, hfill⟩, by decide⟩

theorem fill_datapoints_index_in_bounds_witness :
    (∃ l, fill_datapoints ⟨⟨0⟩, ⟨10000⟩⟩ 2 [(3, 4500), (9, 5100)] = some l) ∧
    fill_datapoints ⟨⟨0⟩, ⟨0⟩⟩ 1 [(5, 2000000)] = none :=
  fill_datapoints_index_in_bounds ⟨⟨0⟩, ⟨10000⟩⟩ 2 [(3, 4500), (9, 5100)]
    (by decide) (by decide) (by decide) (by decide) (by decide)

/-- Modelled from the spec: the target entry of a request (api.rs is not
under src); only the target string matters to the core. -/
structure Target where
  target : String
deriving DecidableEq, Repr

/-- Modelled from the spec: the query request (api.rs is not under src):
a range, the requested resolution in milliseconds (an i64, untrusted), and
the target list; the remaining wire fields are ignored by the core. -/
structure Query where
  range : Range
  interval_ms : Int
  targets : List Target
deriving DecidableEq, Repr

/-- Modelled from the spec: a row of the sites storage query (dao is not
under src): host, timestamp in epoch milliseconds (i64, aligned to whole
seconds), view count (i64). -/
structure SiteRow where
  host : String
  ep : Int
  views : Int
deriving DecidableEq, Repr

/-- Modelled from the spec: a row of the outbound storage query (dao is
not under src): timestamp in epoch milliseconds (i64), byte count (i64). -/
structure OutboundRow where
  ep : Int
  bytes : Int
deriving DecidableEq, Repr

/-- Modelled from the spec: a row of the blog posts storage query (dao is
not under src): referer string and view count. -/
structure BlogRow where
  referer : String
  views : Int
deriving DecidableEq, Repr

/-- Modelled from the spec: a series of the wire format (api.rs is not
under src): a name and the datapoints, each the pair of a value and a
timestamp in u64 milliseconds. -/
structure Series where
  target : String
  datapoints : List (Nat × Nat)
deriving DecidableEq, Repr

/-- Modelled from the spec: a JSON cell of a table row; the blog table
only ever holds strings and integers. -/
inductive JsonVal
  | str (s : String)
  | num (n : Int)
deriving DecidableEq, Repr

/-- Modelled from the spec: a column of the wire table; the source field
named type is called type_ here because type is a reserved word. -/
structure Column where
  text : String
  type_ : String
deriving DecidableEq, Repr

/-- Modelled from the spec: the wire table of api.rs. -/
structure Table where
  type_ : String
  columns : List Column
  rows : List (List JsonVal)
deriving DecidableEq, Repr

/-- Modelled from the spec: the tagged response entry (api.rs is not under
src): either a series or a table. -/
inductive TargetData
  | Series (s : Series)
  | Table (t : Table)
deriving DecidableEq, Repr

/-- Modelled from the spec: the response is a list of tagged entries
(QueryResponse is a tuple struct in api.rs; its single field is named
items here). -/
structure QueryResponse where
  items : List TargetData
deriving DecidableEq, Repr

/-- Modelled from the spec and the constructors used in main.rs (errors.rs
is not under src): the request-scoped failure taxonomy of the spec,
section 7. DbConn is ConnectionFailure, OneTarget is InvalidTargetCount
and carries the number of targets supplied, DatesSwapped is InvalidRange,
DbQuery is DataAccessFailure and names the failing metric query,
UnrecognizedTarget is UnknownTarget. -/
inductive DataError
  | DbConn (db : String)
  | OneTarget (count : Nat)
  | DatesSwapped (f t : DateTime)
  | DbQuery (name : String)
  | UnrecognizedTarget (t : String)
deriving DecidableEq, Repr

/-- Decidable equality of results, needed to evaluate the model on
concrete inputs. -/
instance decEqExcept {ε α : Type} [DecidableEq ε] [DecidableEq α] :
    DecidableEq (Except ε α) := fun a b =>
  match a, b with
  | .error e, .error f =>
    if h : e = f then .isTrue (h ▸ rfl) else .isFalse (fun hc => h (Except.error.inj hc))
  | .ok x, .ok y =>
    if h : x = y then .isTrue (h ▸ rfl) else .isFalse (fun hc => h (Except.ok.inj hc))
  | .error _, .ok _ => .isFalse (fun hc => Except.noConfusion hc)
  | .ok _, .error _ => .isFalse (fun hc => Except.noConfusion hc)

/-- The storage collaborator: the rows each dao query would return, or its
failure. Passing it as an explicit value lets a theorem quantify over every
storage; a result equal for all storage values is computed without storage
access. -/
structure Storage where
  sites : Except Unit (List SiteRow)
  outbound_data : Except Unit (List OutboundRow)
  blog_posts : Except Unit (List BlogRow)
deriving DecidableEq, Repr

/-- The sort key of get_sites (main.rs line 121): rows are compared by
(host, ep) lexicographically. Rust sort_unstable_by_key leaves rows with
equal keys in unspecified order; the model fixes the merge sort order,
which agrees with the source whenever keys are distinct. -/
def site_le (a b : SiteRow) : Bool :=
  if a.host = b.host then decide (a.ep ≤ b.ep) else decide (a.host < b.host)

/-- The sort relation is total. -/
theorem site_le_total (a b : SiteRow) : site_le a b = true ∨ site_le b a = true := by
  unfold site_le
  by_cases h : a.host = b.host
  · rw [if_pos h, if_pos h.symm]
    rcases Int.le_total a.ep b.ep with h2 | h2
    · exact Or.inl (decide_eq_true h2)
    · exact Or.inr (decide_eq_true h2)
  · rw [if_neg h, if_neg (fun hc => h hc.symm)]
    rcases lt_trichotomy a.host b.host with h3 | h3 | h3
    · exact Or.inl (decide_eq_true h3)
    · exact absurd h3 h
    · exact Or.inr (decide_eq_true h3)

/-- The sort relation is transitive. -/
theorem site_le_trans {a b c : SiteRow} (h1 : site_le a b = true)
    (h2 : site_le b c = true) : site_le a c = true := by
  unfold site_le at h1 h2 ⊢
  by_cases hab : a.host = b.host <;> by_cases hbc : b.host = c.host
  · rw [if_pos hab] at h1
    rw [if_pos hbc] at h2
    rw [if_pos (hab.trans hbc)]
    exact decide_eq_true (le_trans (of_decide_eq_true h1) (of_decide_eq_true h2))
  · rw [if_neg hbc] at h2
    have hlt : a.host < c.host :=
      lt_of_le_of_lt (le_of_eq hab) (of_decide_eq_true h2)
    rw [if_neg (ne_of_lt hlt)]
    exact decide_eq_true hlt
  · rw [if_neg hab] at h1
    have hlt : a.host < c.host :=
      lt_of_lt_of_le (of_decide_eq_true h1) (le_of_eq hbc)
    rw [if_neg (ne_of_lt hlt)]
    exact decide_eq_true hlt
  · rw [if_neg hab] at h1
    rw [if_neg hbc] at h2
    have hlt : a.host < c.host :=
      lt_trans (of_decide_eq_true h1) (of_decide_eq_true h2)
    rw [if_neg (ne_of_lt hlt)]
    exact decide_eq_true hlt

instance : IsTotal SiteRow fun a b => site_le a b = true :=
  ⟨site_le_total⟩

instance : IsTrans SiteRow fun a b => site_le a b = true :=
  ⟨fun _ _ _ => site_le_trans⟩

/-- Consecutive grouping by host (the itertools group_by call of main.rs
line 124 applied to the sorted rows): each maximal run of rows with equal
host becomes one (host, run) pair. Written by structural recursion on the
tail: the head row joins the first group of the grouped tail when the
hosts agree and opens a fresh group otherwise, which yields exactly the
runs of equal hosts. -/
def group_by_host : List SiteRow → List (String × List SiteRow)
  | [] => []
  | r :: rs =>
    match group_by_host rs with
    | [] => [(r.host, [r])]
    | (h, g) :: rest =>
      if r.host = h then (h, r :: g) :: rest
      else (r.host, [r]) :: (h, g) :: rest

/-- The point built from a sites row (main.rs line 126):
[views as u64, ep as u64]. -/
def site_point (r : SiteRow) : Nat × Nat :=
  (u64_of_i64 r.views, u64_of_i64 r.ep)

/-- The point built from an outbound row (main.rs line 171):
[bytes as u64, ep as u64]. -/
def outbound_point (r : OutboundRow) : Nat × Nat :=
  (u64_of_i64 r.bytes, u64_of_i64 r.ep)

/-- Model of get_sites (main.rs lines 110 to 136): fetch the rows, sort by
(host, ep), group consecutive rows by host, bucket each group with
fill_datapoints, and emit one series per group. A dao failure is DbQuery;
a panic inside fill_datapoints propagates as none. -/
def get_sites (rows : Except Unit (List SiteRow)) (range : Range) (interval : Int) :
    Option (Except DataError QueryResponse) :=
  match rows with
  | .error _ => some (.error (.DbQuery "sites"))
  | .ok rows =>
    let sorted := List.insertionSort (fun a b => site_le a b = true) rows
    let groups := group_by_host sorted
    (groups.mapM fun g =>
      (fill_datapoints range interval (g.2.map site_point)).map fun datapoints =>
        TargetData.Series ⟨g.1, datapoints⟩).map
      fun v => .ok ⟨v⟩

/-- Model of get_outbound (main.rs lines 162 to 180): all rows feed one
series named outbound_data. -/
def get_outbound (rows : Except Unit (List OutboundRow)) (range : Range)
    (interval : Int) : Option (Except DataError QueryResponse) :=
  match rows with
  | .error _ => some (.error (.DbQuery "outbound data"))
  | .ok rows =>
    (fill_datapoints range interval (rows.map outbound_point)).map fun datapoints =>
      .ok ⟨[TargetData.Series ⟨"outbound_data", datapoints⟩]⟩

/-- Model of create_blog_table (main.rs lines 199 to 214). -/
def create_blog_table (rows : List (List JsonVal)) : Table :=
  { type_ := "table"
    columns := [⟨"article", "string"⟩, ⟨"count", "number"⟩]
    rows := rows }

/-- Model of get_blog_posts (main.rs lines 182 to 197): one table entry,
one table row per storage row in order. -/
def get_blog_posts (rows : Except Unit (List BlogRow)) :
    Option (Except DataError QueryResponse) :=
  match rows with
  | .error _ => some (.error (.DbQuery "blog posts"))
  | .ok rows =>
    some (.ok ⟨[TargetData.Table (create_blog_table
      (rows.map fun r => [JsonVal.str r.referer, JsonVal.num r.views]))]⟩)

/-- The interval normalization of the query handler (main.rs line 98):
max(interval_ms / 1000, 1), with the i64 division of Rust (toward zero). -/
def normalize_interval (interval_ms : Int) : Int :=
  max (interval_ms.tdiv 1000) 1

/-- Model of the query handler (main.rs lines 71 to 108), from the point
after the storage connection is scoped (connection management is an
external collaborator excluded by the spec, section 1): take the first
target, failing with OneTarget when there is none; reject a swapped range;
normalize the interval; dispatch on the target name. -/
def query (q : Query) (st : Storage) : Option (Except DataError QueryResponse) :=
  match q.targets.head? with
  | none => some (.error (.OneTarget q.targets.length))
  | some first =>
    if q.range.to_.ms < q.range.from_.ms then
      some (.error (.DatesSwapped q.range.from_ q.range.to_))
    else
      let interval := normalize_interval q.interval_ms
      match first.target with
      | "blog_hits" => get_blog_posts st.blog_posts
      | "sites" => get_sites st.sites q.range interval
      | "outbound_data" => get_outbound st.outbound_data q.range interval
      | x => some (.error (.UnrecognizedTarget x))

example :
    query ⟨⟨⟨0⟩, ⟨0⟩⟩, 1000, [⟨"sites"⟩]⟩
      ⟨.ok [⟨"a", 0, 1⟩, ⟨"a", 0, 2⟩], .ok [], .ok []⟩ =
    some (.ok ⟨[.Series ⟨"a", [(2, 0)]⟩]⟩) := by decide

example :
    query ⟨⟨⟨0⟩, ⟨0⟩⟩, 1000, [⟨"sites"⟩]⟩ ⟨.ok [], .ok [], .ok []⟩ =
    some (.ok ⟨[]⟩) := by decide

example :
    query ⟨⟨⟨0⟩, ⟨0⟩⟩, 1000, []⟩ ⟨.ok [], .ok [], .ok []⟩ =
    some (.error (.OneTarget 0)) := by decide

example :
    query ⟨⟨⟨1000⟩, ⟨0⟩⟩, 1000, [⟨"bogus"⟩]⟩ ⟨.ok [], .ok [], .ok []⟩ =
    some (.error (.DatesSwapped ⟨1000⟩ ⟨0⟩)) := by decide

/-- Claim C5: the interval normalizer computes max(floor(interval_ms/1000), 1);
any nonpositive requested resolution normalizes to exactly one second, and
the normalized step is always at least one second, so the bucketing step is
never zero or negative. -/
theorem normalize_interval_spec (interval_ms : Int) :
    normalize_interval interval_ms = max (interval_ms.fdiv 1000) 1 ∧
    (interval_ms ≤ 0 → normalize_interval interval_ms = 1) ∧
    1 ≤ normalize_interval interval_ms := by
  have htd : interval_ms ≤ 0 → interval_ms.tdiv 1000 ≤ 0 := by
    intro h
    have h1 : 0 ≤ (-interval_ms).tdiv 1000 := by
      rw [Int.tdiv_eq_ediv (by omega) (by norm_num)]
      exact Int.ediv_nonneg (by omega) (by norm_num)
    rw [Int.neg_tdiv] at h1
    omega
  refine ⟨?_, fun h => ?_, le_max_right _ _⟩
  · by_cases h : 0 ≤ interval_ms
    · rw [normalize_interval, tdiv_eq_fdiv_of_nonneg h (by norm_num)]
    · have h2 : interval_ms.fdiv 1000 ≤ 0 := by
        rw [Int.fdiv_eq_ediv _ (by norm_num)]
        omega
      have e1 : interval_ms.tdiv 1000 ≤ 1 := (htd (by omega)).trans (by norm_num)
      have e2 : interval_ms.fdiv 1000 ≤ 1 := h2.trans (by norm_num)
      rw [normalize_interval, max_eq_right e1, max_eq_right e2]
  · rw [normalize_interval, max_eq_right ((htd h).trans (by norm_num))]

theorem normalize_interval_spec_witness :
    normalize_interval (-5) = max (Int.fdiv (-5) 1000) 1 ∧
    normalize_interval (-5) = 1 :=
  ⟨(normalize_interval_spec (-5)).1, (normalize_interval_spec (-5)).2.1 (by decide)⟩

/-- Discriminator for the target-count error, used to state refutations. -/
def is_one_target_error : Option (Except DataError QueryResponse) → Bool
  | some (.error (.OneTarget _)) => true
  | _ => false

/-- Discriminator for the swapped-range error. -/
def is_dates_swapped_error : Option (Except DataError QueryResponse) → Bool
  | some (.error (.DatesSwapped _ _)) => true
  | _ => false

/-- Discriminator for the unknown-target error. -/
def is_unknown_target_error : Option (Except DataError QueryResponse) → Bool
  | some (.error (.UnrecognizedTarget _)) => true
  | _ => false

/-- Claim C6 counterexample: a request with two targets is not rejected
with the target-count error; the handler processes the first target (here
an unknown name, so the result is the unknown-target error). -/
theorem query_two_targets_not_rejected :
    query ⟨⟨⟨0⟩, ⟨0⟩⟩, 1000, [⟨"nope"⟩, ⟨"sites"⟩]⟩ ⟨.ok [], .ok [], .ok []⟩ =
      some (.error (.UnrecognizedTarget "nope")) ∧
    is_one_target_error (query ⟨⟨⟨0⟩, ⟨0⟩⟩, 1000, [⟨"nope"⟩, ⟨"sites"⟩]⟩
      ⟨.ok [], .ok [], .ok []⟩) = false := by decide

/-- Claim C6 amended: a request with no targets fails with the target
count error, carrying the count zero, for every storage value, so no
resolver runs; a request with more than one target is not rejected but is
handled exactly as the request carrying only its first target. -/
theorem query_target_count (q : Query) (st : Storage) :
    (q.targets = [] → query q st = some (.error (.OneTarget 0))) ∧
    (∀ t rest, q.targets = t :: rest →
      query q st = query { q with targets := [t] } st) := by
  constructor
  · intro h
    simp [query, h]
  · intro t rest h
    simp [query, h]

theorem query_target_count_witness :
    query ⟨⟨⟨0⟩, ⟨0⟩⟩, 1000, []⟩ ⟨.ok [], .ok [], .ok []⟩ =
      some (.error (.OneTarget 0)) :=
  (query_target_count ⟨⟨⟨0⟩, ⟨0⟩⟩, 1000, []⟩ ⟨.ok [], .ok [], .ok []⟩).1 rfl

/-- Claim C7 counterexample: a swapped range does not always fail with the
swapped-dates error: with an empty target list the target-count check runs
first and wins. -/
theorem query_swapped_range_empty_targets :
    query ⟨⟨⟨1000⟩, ⟨0⟩⟩, 1000, []⟩ ⟨.ok [], .ok [], .ok []⟩ =
      some (.error (.OneTarget 0)) ∧
    is_dates_swapped_error (query ⟨⟨⟨1000⟩, ⟨0⟩⟩, 1000, []⟩
      ⟨.ok [], .ok [], .ok []⟩) = false := by decide

/-- Claim C7 amended: when at least one target is present, a request whose
range has from after to fails with the swapped-dates error for every
storage value, hence before any resolver or bucketing runs. -/
theorem query_swapped_range (q : Query) (t : Target) (rest : List Target)
    (htargets : q.targets = t :: rest)
    (hlt : q.range.to_.ms < q.range.from_.ms) :
    ∀ st : Storage,
      query q st = some (.error (.DatesSwapped q.range.from_ q.range.to_)) := by
  intro st
  simp [query, htargets, hlt]

theorem query_swapped_range_witness :
    query ⟨⟨⟨1000⟩, ⟨0⟩⟩, 1000, [⟨"sites"⟩]⟩ ⟨.ok [], .ok [], .ok []⟩ =
      some (.error (.DatesSwapped ⟨1000⟩ ⟨0⟩)) :=
  query_swapped_range ⟨⟨⟨1000⟩, ⟨0⟩⟩, 1000, [⟨"sites"⟩]⟩ ⟨"sites"⟩ []
    rfl (by decide) ⟨.ok [], .ok [], .ok []⟩

/-- Claim C8 counterexample: an unknown target does not always fail with
the unknown-target error: when the range is also swapped, the range check
runs first and wins. -/
theorem query_unknown_target_swapped_range :
    query ⟨⟨⟨1000⟩, ⟨0⟩⟩, 1000, [⟨"bogus"⟩]⟩ ⟨.ok [], .ok [], .ok []⟩ =
      some (.error (.DatesSwapped ⟨1000⟩ ⟨0⟩)) ∧
    is_unknown_target_error (query ⟨⟨⟨1000⟩, ⟨0⟩⟩, 1000, [⟨"bogus"⟩]⟩
      ⟨.ok [], .ok [], .ok []⟩) = false := by decide

/-- Claim C8 amended: a request whose single target is outside the known
metric set and whose range is not swapped fails with the unknown-target
error for every storage value, hence without any storage access. -/
theorem query_unknown_target (q : Query) (t : Target)
    (htargets : q.targets = [t])
    (hrange : q.range.from_.ms ≤ q.range.to_.ms)
    (hname : t.target ≠ "blog_hits" ∧ t.target ≠ "sites" ∧
      t.target ≠ "outbound_data") :
    ∀ st : Storage,
      query q st = some (.error (.UnrecognizedTarget t.target)) := by
  intro st
  rw [query, htargets]
  simp only [List.head?]
  rw [if_neg (by omega)]
  split
  next h => exact absurd h hname.1
  next h => exact absurd h hname.2.1
  next h => exact absurd h hname.2.2
  next => rfl

theorem query_unknown_target_witness :
    query ⟨⟨⟨0⟩, ⟨1000⟩⟩, 1000, [⟨"bogus"⟩]⟩ ⟨.ok [], .ok [], .ok []⟩ =
      some (.error (.UnrecognizedTarget "bogus")) :=
  query_unknown_target ⟨⟨⟨0⟩, ⟨1000⟩⟩, 1000, [⟨"bogus"⟩]⟩ ⟨"bogus"⟩
    rfl (by decide) (by decide) ⟨.ok [], .ok [], .ok []⟩

/-- The sort order is compatible with the host order. -/
theorem site_le_host_le {a b : SiteRow} (h : site_le a b = true) :
    a.host ≤ b.host := by
  unfold site_le at h
  by_cases hh : a.host = b.host
  · exact le_of_eq hh
  · rw [if_neg hh] at h
    exact le_of_lt (of_decide_eq_true h)

/-- Within one host the sort order is the timestamp order. -/
theorem site_le_ep_le {a b : SiteRow} (h : site_le a b = true)
    (hh : a.host = b.host) : a.ep ≤ b.ep := by
  unfold site_le at h
  rw [if_pos hh] at h
  exact of_decide_eq_true h

/-- Grouping a nonempty list opens with a group keyed by the head host. -/
theorem group_by_host_cons (a : SiteRow) (t : List SiteRow) :
    ∃ g rest, group_by_host (a :: t) = (a.host, g) :: rest := by
  cases hgt : group_by_host t with
  | nil =>
    exact ⟨[a], [], by simp only [group_by_host, hgt]⟩
  | cons p rest =>
    obtain ⟨h, g⟩ := p
    by_cases hh : a.host = h
    · refine ⟨a :: g, rest, ?_⟩
      simp only [group_by_host, hgt, if_pos hh]
      rw [hh]
    · exact ⟨[a], (h, g) :: rest, by simp only [group_by_host, hgt, if_neg hh]⟩

/-- Characterization of group_by_host on a list sorted by the sites key:
each group is exactly the filter of the whole list at its key and is
nonempty, the keys are pairwise distinct, and the keys are exactly the
hosts occurring in the list. -/
theorem group_by_host_sorted (l : List SiteRow)
    (hsort : l.Pairwise fun a b => site_le a b = true) :
    (∀ p ∈ group_by_host l,
      p.2 = l.filter (fun x => x.host == p.1) ∧ p.2 ≠ []) ∧
    ((group_by_host l).map Prod.fst).Nodup ∧
    (∀ h : String, h ∈ (group_by_host l).map Prod.fst ↔ h ∈ l.map SiteRow.host) := by
  induction l with
  | nil =>
    refine ⟨?_, ?_, ?_⟩ <;> simp [group_by_host]
  | cons r rs ih =>
    rw [List.pairwise_cons] at hsort
    obtain ⟨hr, hsort2⟩ := hsort
    obtain ⟨ihg, ihnodup, ihmem⟩ := ih hsort2
    cases hB : group_by_host rs with
    | nil =>
      have hrs : rs = [] := by
        cases rs with
        | nil => rfl
        | cons a t =>
          obtain ⟨g, rest, hgr⟩ := group_by_host_cons a t
          rw [hgr] at hB
          exact absurd hB (by simp)
      subst hrs
      refine ⟨?_, by simp [group_by_host], by simp [group_by_host]⟩
      intro p hp
      simp only [group_by_host] at hp
      rw [List.mem_singleton] at hp
      subst hp
      exact ⟨by simp, by simp⟩
    | cons p0 rest =>
      obtain ⟨h0, g0⟩ := p0
      obtain ⟨hg0f, hg0ne⟩ := ihg (h0, g0) (by rw [hB]; exact List.mem_cons_self _ _)
      replace hg0f : g0 = rs.filter (fun x => x.host == h0) := hg0f
      have hy : ∃ y ∈ rs, y.host = h0 := by
        cases hg0c : g0 with
        | nil => exact absurd hg0c hg0ne
        | cons y ys =>
          have hyg : y ∈ g0 := by rw [hg0c]; exact List.mem_cons_self _ _
          rw [hg0f] at hyg
          obtain ⟨hy1, hy2⟩ := List.mem_filter.mp hyg
          exact ⟨y, hy1, by simpa using hy2⟩
      have hhead : ∃ a t, rs = a :: t ∧ a.host = h0 := by
        cases hrs : rs with
        | nil =>
          rw [hrs] at hB
          exact absurd hB (by simp [group_by_host])
        | cons a t =>
          obtain ⟨g, rest2, hgr⟩ := group_by_host_cons a t
          rw [hrs, hgr] at hB
          have hB1 := (List.cons.injEq _ _ _ _).mp hB
          exact ⟨a, t, rfl, congrArg Prod.fst hB1.1⟩
      have hnotin : r.host ≠ h0 → ∀ x ∈ rs, x.host ≠ r.host := by
        intro hne x hx hxr
        obtain ⟨a, t, hrs_eq, hahost⟩ := hhead
        subst hrs_eq
        have h1 : r.host ≤ a.host := site_le_host_le (hr a (List.mem_cons_self _ _))
        rcases List.mem_cons.mp hx with hxa | hxt
        · subst hxa
          exact hne (hxr ▸ hahost)
        · have h2 : a.host ≤ x.host :=
            site_le_host_le ((List.pairwise_cons.mp hsort2).1 x hxt)
          have h3 : a.host = r.host := le_antisymm (hxr ▸ h2) h1
          exact hne (h3 ▸ hahost)
      by_cases hrh : r.host = h0
      · have hgroups_eq : group_by_host (r :: rs) = (h0, r :: g0) :: rest := by
          simp only [group_by_host, hB, if_pos hrh]
        refine ⟨?_, ?_, ?_⟩
        · intro p hp
          rw [hgroups_eq] at hp
          rcases List.mem_cons.mp hp with hph | hpt
          · subst hph
            refine ⟨?_, by simp⟩
            show r :: g0 = (r :: rs).filter (fun x => x.host == h0)
            rw [List.filter_cons_of_pos (by simpa using hrh), hg0f]
          · have hpin : p ∈ group_by_host rs := by
              rw [hB]
              exact List.mem_cons_of_mem _ hpt
            obtain ⟨hpf, hpne⟩ := ihg p hpin
            refine ⟨?_, hpne⟩
            have hkey0 : h0 ∉ rest.map Prod.fst := by
              rw [hB, List.map_cons] at ihnodup
              exact (List.nodup_cons.mp ihnodup).1
            have hp1 : p.1 ≠ r.host := by
              intro hc
              apply hkey0
              rw [← hrh, ← hc]
              exact List.mem_map_of_mem _ hpt
            rw [List.filter_cons_of_neg (by simpa using fun hc => hp1 hc.symm), hpf]
        · rw [hgroups_eq, List.map_cons]
          rw [hB, List.map_cons] at ihnodup
          exact ihnodup
        · intro h
          rw [hgroups_eq, List.map_cons, List.map_cons]
          rw [hB, List.map_cons] at ihmem
          constructor
          · intro hh
            rcases List.mem_cons.mp hh with h1 | h1
            · subst h1
              obtain ⟨y, hy1, hy2⟩ := hy
              exact List.mem_cons_of_mem _ (hy2 ▸ List.mem_map_of_mem _ hy1)
            · exact List.mem_cons_of_mem _
                ((ihmem h).mp (List.mem_cons_of_mem _ h1))
          · intro hh
            rcases List.mem_cons.mp hh with h1 | h1
            · subst h1
              rw [hrh]
              exact List.mem_cons_self _ _
            · exact (ihmem h).mpr h1
      · have hnotin2 := hnotin hrh
        have hgroups_eq :
            group_by_host (r :: rs) = (r.host, [r]) :: (h0, g0) :: rest := by
          simp only [group_by_host, hB, if_neg hrh]
        refine ⟨?_, ?_, ?_⟩
        · intro p hp
          rw [hgroups_eq] at hp
          rcases List.mem_cons.mp hp with hph | hpt
          · subst hph
            refine ⟨?_, by simp⟩
            show [r] = (r :: rs).filter (fun x => x.host == r.host)
            rw [List.filter_cons_of_pos (by simp)]
            have hnil : rs.filter (fun x => x.host == r.host) = [] := by
              rw [List.filter_eq_nil_iff]
              intro x hx
              simpa using hnotin2 x hx
            rw [hnil]
          · have hpin : p ∈ group_by_host rs := by rw [hB]; exact hpt
            obtain ⟨hpf, hpne⟩ := ihg p hpin
            refine ⟨?_, hpne⟩
            have hp1host : p.1 ∈ rs.map SiteRow.host :=
              (ihmem p.1).mp (List.mem_map_of_mem _ hpin)
            obtain ⟨x, hx1, hx2⟩ := List.mem_map.mp hp1host
            have hrp1 : r.host ≠ p.1 := by
              rw [← hx2]
              exact fun hc => hnotin2 x hx1 hc.symm
            rw [List.filter_cons_of_neg (by simpa using hrp1), hpf]
        · rw [hgroups_eq, List.map_cons]
          refine List.nodup_cons.mpr ⟨?_, ?_⟩
          · intro hc
            have hmem2 := (ihmem r.host).mp (by rw [hB]; exact hc)
            obtain ⟨x, hx1, hx2⟩ := List.mem_map.mp hmem2
            exact hnotin2 x hx1 hx2
          · rw [hB] at ihnodup
            exact ihnodup
        · intro h
          rw [hgroups_eq, List.map_cons, List.map_cons]
          constructor
          · intro hh
            rcases List.mem_cons.mp hh with h1 | h1
            · subst h1
              exact List.mem_cons_self _ _
            · exact List.mem_cons_of_mem _ ((ihmem h).mp (by rw [hB]; exact h1))
          · intro hh
            rcases List.mem_cons.mp hh with h1 | h1
            · subst h1
              exact List.mem_cons_self _ _
            · have hmem3 := (ihmem h).mpr h1
              rw [hB] at hmem3
              exact List.mem_cons_of_mem _ hmem3

/-- A monadic map over Option succeeds pointwise. -/
theorem mapM_option_eq_some {α β : Type} (f : α → Option β) (g : α → β)
    (l : List α) (h : ∀ a ∈ l, f a = some (g a)) :
    l.mapM f = some (l.map g) := by
  induction l with
  | nil => rfl
  | cons a t ih =>
    rw [List.map_cons, List.mapM_cons, h a (List.mem_cons_self a t),
      ih (fun x hx => h x (List.mem_cons_of_mem a hx))]
    rfl

/-- Claim C9: on a validated range, for rows whose timestamps are in-range
whole-second epoch milliseconds, get_sites succeeds and returns exactly
one series per distinct host in the rows, each named by its host, and each
obtained by bucketing (fill_datapoints over the identical range and
interval) exactly the rows of that host arranged in ascending timestamp
order. -/
theorem get_sites_one_series_per_host (rows : List SiteRow) (range : Range)
    (s : Int)
    (hs : 1 ≤ s)
    (hft : range.from_.timestamp ≤ range.to_.timestamp)
    (hms0 : 0 ≤ range.from_.ms) (hms1 : range.to_.ms < 2 ^ 64)
    (hrows : ∀ r ∈ rows, 0 ≤ r.ep ∧ r.ep < 2 ^ 63 ∧
      range.from_.timestamp ≤ r.ep.tdiv 1000 ∧
      r.ep.tdiv 1000 ≤ range.to_.timestamp) :
    ∃ ser : List Series,
      get_sites (.ok rows) range s = some (.ok ⟨ser.map TargetData.Series⟩) ∧
      ser.length = ((rows.map SiteRow.host).dedup).length ∧
      (ser.map Series.target).Nodup ∧
      (∀ h : String, h ∈ ser.map Series.target ↔ h ∈ rows.map SiteRow.host) ∧
      ∀ e ∈ ser, ∃ pts : List SiteRow,
        (rows.filter fun x => x.host == e.target).Perm pts ∧
        pts.Pairwise (fun a b => a.ep ≤ b.ep) ∧
        fill_datapoints range s (pts.map site_point) = some e.datapoints := by
  have hdiff : range.to_.timestamp - range.from_.timestamp < 2 ^ 63 := by
    have hA0 : 0 ≤ range.from_.timestamp := by
      rw [DateTime.timestamp, Int.fdiv_eq_ediv _ (by norm_num)]
      exact Int.ediv_nonneg hms0 (by norm_num)
    have hBle : range.to_.timestamp * 1000 ≤ range.to_.ms := by
      rw [DateTime.timestamp, Int.fdiv_eq_ediv _ (by norm_num)]
      exact Int.ediv_mul_le _ (by norm_num)
    omega
  set sorted := List.insertionSort (fun a b => site_le a b = true) rows
    with hsorted_def
  have hperm : sorted.Perm rows :=
    List.perm_insertionSort (fun a b => site_le a b = true) rows
  have hsort : sorted.Pairwise fun a b => site_le a b = true :=
    List.sorted_insertionSort (fun a b => site_le a b = true) rows
  obtain ⟨hgroups, hnodup, hmem⟩ := group_by_host_sorted sorted hsort
  have hrows2 : ∀ r ∈ sorted, 0 ≤ r.ep ∧ r.ep < 2 ^ 63 ∧
      range.from_.timestamp ≤ r.ep.tdiv 1000 ∧
      r.ep.tdiv 1000 ≤ range.to_.timestamp :=
    fun r hrr => hrows r (hperm.subset hrr)
  have hpoints : ∀ x ∈ sorted, (site_point x).2 < 2 ^ 63 ∧
      range.from_.timestamp ≤ (((site_point x).2 : Nat) : Int).tdiv 1000 ∧
      (((site_point x).2 : Nat) : Int).tdiv 1000 ≤ range.to_.timestamp := by
    intro x hx
    obtain ⟨he0, he63, hge, hle⟩ := hrows2 x hx
    have hcast : (site_point x).2 = x.ep.toNat := by
      show u64_of_i64 x.ep = x.ep.toNat
      exact u64_of_i64_of_nonneg he0 (by omega)
    have hback : (((site_point x).2 : Nat) : Int) = x.ep := by
      rw [hcast]
      exact Int.toNat_of_nonneg he0
    refine ⟨?_, ?_, ?_⟩
    · rw [hcast]
      have := Int.toNat_lt he0 (n := 2 ^ 63)
      omega
    · rw [hback]
      exact hge
    · rw [hback]
      exact hle
  have hfillg : ∀ p ∈ group_by_host sorted,
      ∃ dp, fill_datapoints range s (p.2.map site_point) = some dp := by
    intro p hp
    have hin : ∀ q ∈ p.2.map site_point, q.2 < 2 ^ 63 ∧
        range.from_.timestamp ≤ ((q.2 : Nat) : Int).tdiv 1000 ∧
        ((q.2 : Nat) : Int).tdiv 1000 ≤ range.to_.timestamp := by
      intro q hq
      obtain ⟨x, hx1, hx2⟩ := List.mem_map.mp hq
      have hx_sorted : x ∈ sorted := by
        have hfil := (hgroups p hp).1
        rw [hfil] at hx1
        exact (List.mem_filter.mp hx1).1
      rw [← hx2]
      exact hpoints x hx_sorted
    obtain ⟨dp, hdp, _, _, _⟩ :=
      fill_datapoints_spec range s (p.2.map site_point) hs hft hdiff hin
    exact ⟨dp, hdp⟩
  set serOf := fun p : String × List SiteRow =>
    (⟨p.1, (fill_datapoints range s (p.2.map site_point)).getD []⟩ : Series)
    with hserOf
  have hf : ∀ p ∈ group_by_host sorted,
      ((fill_datapoints range s (p.2.map site_point)).map fun datapoints =>
        TargetData.Series ⟨p.1, datapoints⟩) =
        some (TargetData.Series (serOf p)) := by
    intro p hp
    obtain ⟨dp, hdp⟩ := hfillg p hp
    rw [hdp, hserOf]
    simp only [Option.map_some, hdp, Option.getD_some]
    rfl
  have hmapM : (group_by_host sorted).mapM
      (fun g => (fill_datapoints range s (g.2.map site_point)).map
        fun datapoints => TargetData.Series ⟨g.1, datapoints⟩) =
      some ((group_by_host sorted).map fun p => TargetData.Series (serOf p)) :=
    mapM_option_eq_some _ _ _ hf
  have htargets : ((group_by_host sorted).map serOf).map Series.target =
      (group_by_host sorted).map Prod.fst := by
    rw [List.map_map]
    rfl
  have hkeys_mem : ∀ h : String,
      h ∈ (group_by_host sorted).map Prod.fst ↔ h ∈ rows.map SiteRow.host := by
    intro h
    rw [hmem h]
    exact (hperm.map SiteRow.host).mem_iff
  have hkeys_perm : ((group_by_host sorted).map Prod.fst).Perm
      ((rows.map SiteRow.host).dedup) := by
    rw [List.perm_ext_iff_of_nodup hnodup (List.nodup_dedup _)]
    intro a
    rw [hkeys_mem a, List.mem_dedup]
  refine ⟨(group_by_host sorted).map serOf, ?_, ?_, ?_, ?_, ?_⟩
  · simp only [get_sites, ← hsorted_def, hmapM, Option.map_some]
    rw [List.map_map]
    rfl
  · rw [List.length_map, ← hkeys_perm.length_eq, List.length_map]
  · rw [htargets]
    exact hnodup
  · intro h
    rw [htargets]
    exact hkeys_mem h
  · intro e he
    obtain ⟨p, hp, hpe⟩ := List.mem_map.mp he
    obtain ⟨hpf, hpne⟩ := hgroups p hp
    obtain ⟨dp, hdp⟩ := hfillg p hp
    refine ⟨p.2, ?_, ?_, ?_⟩
    · have he_target : e.target = p.1 := by rw [← hpe]
      rw [he_target, hpf]
      exact (hperm.symm.filter _)
    · have hpw : p.2.Pairwise fun a b => site_le a b = true := by
        rw [hpf]
        exact List.Pairwise.sublist (List.filter_sublist sorted) hsort
      refine hpw.imp_of_mem ?_
      intro a b ha hb hab
      have hahost : a.host = p.1 := by
        rw [hpf] at ha
        simpa using (List.mem_filter.mp ha).2
      have hbhost : b.host = p.1 := by
        rw [hpf] at hb
        simpa using (List.mem_filter.mp hb).2
      exact site_le_ep_le hab (hahost.trans hbhost.symm)
    · have he_dp : e.datapoints = (fill_datapoints range s (p.2.map site_point)).getD [] := by
        rw [← hpe]
      rw [he_dp, hdp]
      rfl

theorem get_sites_one_series_per_host_witness :
    ∃ ser : List Series,
      get_sites (.ok [⟨"a", 4500, 3⟩, ⟨"b", 5100, 9⟩]) ⟨⟨0⟩, ⟨10000⟩⟩ 2 =
        some (.ok ⟨ser.map TargetData.Series⟩) ∧
      ser.length =
        ((([⟨"a", 4500, 3⟩, ⟨"b", 5100, 9⟩] : List SiteRow).map
          SiteRow.host).dedup).length ∧
      (ser.map Series.target).Nodup ∧
      (∀ h : String, h ∈ ser.map Series.target ↔
        h ∈ ([⟨"a", 4500, 3⟩, ⟨"b", 5100, 9⟩] : List SiteRow).map SiteRow.host) ∧
      ∀ e ∈ ser, ∃ pts : List SiteRow,
        (([⟨"a", 4500, 3⟩, ⟨"b", 5100, 9⟩] : List SiteRow).filter
          fun x => x.host == e.target).Perm pts ∧
        pts.Pairwise (fun a b => a.ep ≤ b.ep) ∧
        fill_datapoints ⟨⟨0⟩, ⟨10000⟩⟩ 2 (pts.map site_point) = some e.datapoints :=
  get_sites_one_series_per_host [⟨"a", 4500, 3⟩, ⟨"b", 5100, 9⟩] ⟨⟨0⟩, ⟨10000⟩⟩ 2
    (by decide) (by decide) (by decide) (by decide) (by decide)

/-- The number of entries of a successful response. -/
def response_entry_count : Option (Except DataError QueryResponse) → Option Nat
  | some (.ok resp) => some resp.items.length
  | _ => none

/-- A monadic map over Option preserves length when it succeeds. -/
theorem mapM_option_length {α β : Type} (f : α → Option β) :
    ∀ (l : List α) (bl : List β), l.mapM f = some bl → bl.length = l.length := by
  intro l
  induction l with
  | nil =>
    intro bl h
    cases h
    rfl
  | cons a t ih =>
    intro bl h
    rw [List.mapM_cons] at h
    cases hfa : f a with
    | none =>
      rw [hfa] at h
      simp at h
    | some b =>
      rw [hfa] at h
      cases hmt : t.mapM f with
      | none =>
        rw [hmt] at h
        simp at h
      | some bs =>
        rw [hmt] at h
        have hbl : b :: bs = bl := by simpa using h
        rw [← hbl, List.length_cons, ih bs hmt]
        rfl

/-- Claim C10 counterexample: a successful query does not always return a
single-entry response list: a sites request over storage rows with no
hosts succeeds with an empty response list. -/
theorem query_sites_response_not_single :
    query ⟨⟨⟨0⟩, ⟨0⟩⟩, 1000, [⟨"sites"⟩]⟩ ⟨.ok [], .ok [], .ok []⟩ =
      some (.ok ⟨[]⟩) ∧
    response_entry_count (query ⟨⟨⟨0⟩, ⟨0⟩⟩, 1000, [⟨"sites"⟩]⟩
      ⟨.ok [], .ok [], .ok []⟩) = some 0 := by decide

/-- Claim C10 amended: a successful outbound or blog response has exactly
one entry; a successful sites response has exactly one entry per distinct
host of the storage rows, which can be zero or more than one. -/
theorem response_entry_counts :
    (∀ (rows : List OutboundRow) (range : Range) (s : Int) (resp : QueryResponse),
      get_outbound (.ok rows) range s = some (.ok resp) → resp.items.length = 1) ∧
    (∀ (rows : List BlogRow) (resp : QueryResponse),
      get_blog_posts (.ok rows) = some (.ok resp) → resp.items.length = 1) ∧
    (∀ (rows : List SiteRow) (range : Range) (s : Int) (resp : QueryResponse),
      get_sites (.ok rows) range s = some (.ok resp) →
        resp.items.length = ((rows.map SiteRow.host).dedup).length) := by
  refine ⟨?_, ?_, ?_⟩
  · intro rows range s resp h
    simp only [get_outbound] at h
    cases hf : fill_datapoints range s (rows.map outbound_point) with
    | none =>
      rw [hf] at h
      simp at h
    | some dp =>
      rw [hf] at h
      have h2 : Except.ok (ε := DataError)
          (QueryResponse.mk [TargetData.Series ⟨"outbound_data", dp⟩]) = .ok resp := by
        simpa using h
      rw [← Except.ok.inj h2]
      rfl
  · intro rows resp h
    simp only [get_blog_posts] at h
    have h2 : Except.ok (ε := DataError)
        (QueryResponse.mk [TargetData.Table (create_blog_table
          (rows.map fun r => [JsonVal.str r.referer, JsonVal.num r.views]))]) =
        .ok resp := by
      simpa using h
    rw [← Except.ok.inj h2]
    rfl
  · intro rows range s resp h
    simp only [get_sites] at h
    cases hm : (group_by_host
        (List.insertionSort (fun a b => site_le a b = true) rows)).mapM
        (fun g => (fill_datapoints range s (g.2.map site_point)).map
          fun datapoints => TargetData.Series ⟨g.1, datapoints⟩) with
    | none =>
      rw [hm] at h
      simp at h
    | some v =>
      rw [hm] at h
      have h2 : Except.ok (ε := DataError) (QueryResponse.mk v) = .ok resp := by
        simpa using h
      rw [← Except.ok.inj h2]
      have hlen := mapM_option_length _ _ _ hm
      obtain ⟨_, hnodup, hmem⟩ := group_by_host_sorted
        (List.insertionSort (fun a b => site_le a b = true) rows)
        (List.sorted_insertionSort (fun a b => site_le a b = true) rows)
      have hperm : (List.insertionSort (fun a b => site_le a b = true) rows).Perm
          rows := List.perm_insertionSort _ rows
      have hkeys_perm : ((group_by_host
          (List.insertionSort (fun a b => site_le a b = true) rows)).map
            Prod.fst).Perm ((rows.map SiteRow.host).dedup) := by
        rw [List.perm_ext_iff_of_nodup hnodup (List.nodup_dedup _)]
        intro a
        rw [hmem a, List.mem_dedup]
        exact (hperm.map SiteRow.host).mem_iff
      show v.length = ((rows.map SiteRow.host).dedup).length
      rw [hlen, ← hkeys_perm.length_eq, List.length_map]

theorem response_entry_counts_witness :
    (QueryResponse.mk [TargetData.Series ⟨"outbound_data", [(0, 0)]⟩]).items.length
      = 1 :=
  response_entry_counts.1 [] ⟨⟨0⟩, ⟨0⟩⟩ 1
    ⟨[TargetData.Series ⟨"outbound_data", [(0, 0)]⟩]⟩ (by decide)
